import Mathlib

/-!
# Verification of the `ratatui-json-tutorial` JSON widget

Shallow embedding of `src/json_widget.rs` and the cursor commands of
`src/main.rs`.  Modelling conventions:

* `u16` coordinates and sizes are embedded as `Nat`.  The geometries the
  claims quantify over stay far below `2 ^ 16`, so `u16` saturation at
  `Rect::new` and overflow of additions are not modelled; the `u16`
  subtractions that *can* underflow at tiny sizes (`area.width - 2`,
  `area.width - key_width - 2`) are modelled as checked subtraction
  (`checkedSub`), mirroring Rust's panic on underflow: a render function
  returns `none` exactly when the Rust code would panic.
* Rust `&str` values are embedded as `List Char`; every character is
  treated as one terminal cell wide (all text the claims inspect is ASCII).
* `serde_json::Number` keeps only its `Display` text, which is all the
  renderer uses (`format!("{}", num)`).
* `serde_json::Map` iteration is embedded as a list of key/value pairs in
  iteration order.
* `ratatui`'s `Buffer` is a rectangle plus a row-major cell list;
  `Span::render` and `Line::render` are embedded following their sources:
  intersect with the buffer area, skip when empty, then write the
  characters of the content on the area's top row, truncated at the
  area's right edge.  The `Line`-level style patch is the identity here
  because the rendered lines carry the default (empty) line style.
-/

/-- The style roles used by the widget's `const` style table
(`PUNCTUATION_STYLE`, `KEY_STYLE`, ...).  The concrete colors/modifiers are
irrelevant to the claims, so each `const` becomes one tag. -/
inductive Style where
  | punctuation
  | key
  | string
  | number
  | boolean
  | null
  | defaultStyle
deriving DecidableEq, Repr

/-- One terminal cell: a symbol and the style it was written with.
An untouched cell is `⟨' ', Style.defaultStyle⟩` (ratatui's empty cell). -/
structure Cell where
  symbol : Char
  style : Style
deriving DecidableEq, Repr

/-- `ratatui::layout::Rect`: position and size in cells (`u16` fields
embedded as `Nat`). -/
structure Rect where
  x : Nat
  y : Nat
  width : Nat
  height : Nat
deriving DecidableEq, Repr

namespace Rect

/-- `Rect::left`. -/
def left (r : Rect) : Nat := r.x

/-- `Rect::top`. -/
def top (r : Rect) : Nat := r.y

/-- `Rect::right` = `x + width`. -/
def right (r : Rect) : Nat := r.x + r.width

/-- `Rect::bottom` = `y + height`. -/
def bottom (r : Rect) : Nat := r.y + r.height

/-- `Rect::is_empty`: zero width or zero height. -/
def isEmpty (r : Rect) : Bool := r.width == 0 || r.height == 0

/-- `Rect::intersection`; `Nat` subtraction is truncated, exactly like the
`saturating_sub` in the Rust source. -/
def intersection (r o : Rect) : Rect :=
  let x1 := max r.x o.x
  let y1 := max r.y o.y
  let x2 := min r.right o.right
  let y2 := min r.bottom o.bottom
  ⟨x1, y1, x2 - x1, y2 - y1⟩

/-- Membership of a cell coordinate in a rectangle. -/
def contains (r : Rect) (px py : Nat) : Bool :=
  r.x ≤ px && px < r.right && r.y ≤ py && py < r.bottom

end Rect

/-- Checked `u16` subtraction: `none` models Rust's panic on underflow
(`attempt to subtract with overflow`). -/
def checkedSub (a b : Nat) : Option Nat :=
  if b ≤ a then some (a - b) else none

/-- `ratatui::buffer::Buffer`: an area and its cells in row-major order
(index `(y - area.y) * area.width + (x - area.x)`). -/
structure Buffer where
  area : Rect
  content : List Cell
deriving DecidableEq, Repr

namespace Buffer

/-- `Buffer::empty`: every cell is a default (space) cell. -/
def empty (area : Rect) : Buffer :=
  ⟨area, List.replicate (area.width * area.height) ⟨' ', Style.defaultStyle⟩⟩

/-- Write one cell at absolute coordinates; out-of-area writes are
dropped (the embedded render paths only write inside the area, having
intersected every target rectangle with `buf.area` first). -/
def setCell (buf : Buffer) (px py : Nat) (c : Cell) : Buffer :=
  if buf.area.contains px py then
    ⟨buf.area,
      buf.content.set ((py - buf.area.y) * buf.area.width + (px - buf.area.x)) c⟩
  else buf

/-- Read the cell at absolute coordinates (default cell when outside). -/
def getCell (buf : Buffer) (px py : Nat) : Cell :=
  if buf.area.contains px py then
    buf.content.getD ((py - buf.area.y) * buf.area.width + (px - buf.area.x))
      ⟨' ', Style.defaultStyle⟩
  else ⟨' ', Style.defaultStyle⟩

end Buffer

/-- Write the characters of `text` left-to-right on row `py` starting at
column `px`, stopping before a character whose right edge would pass
`maxX` — the loop body of `Span::render` (one-cell-wide symbols). -/
def writeChars : List Char → Style → Nat → Nat → Nat → Buffer → Buffer
  | [], _, _, _, _, buf => buf
  | c :: cs, st, px, py, maxX, buf =>
    if px + 1 > maxX then buf
    else writeChars cs st (px + 1) py maxX (buf.setCell px py ⟨c, st⟩)

/-- `Span::render` (`WidgetRef for Span`): intersect with the buffer area,
return if empty, then write the span's symbols on the area's top row,
truncated at `min (left + width of content) right`. -/
def renderSpan (text : List Char) (st : Style) (area : Rect) (buf : Buffer) : Buffer :=
  let a := area.intersection buf.area
  if a.isEmpty then buf
  else writeChars text st a.left a.top (min (a.left + text.length) a.right) buf

/-- `Line::render` for a left-aligned line with the default line style:
render each span in turn, advancing the x offset by the span's width and
shrinking the remaining width accordingly (`Nat` subtraction matches the
`saturating_sub` in ratatui's span layout). -/
def renderLineSpans : List (List Char × Style) → Nat → Rect → Buffer → Buffer
  | [], _, _, buf => buf
  | (t, st) :: rest, off, area, buf =>
    let b := renderSpan t st ⟨area.x + off, area.y, area.width - off, area.height⟩ buf
    renderLineSpans rest (off + t.length) area b

/-- `Line::render` of a list of spans. -/
def renderLine (spans : List (List Char × Style)) (area : Rect) (buf : Buffer) : Buffer :=
  renderLineSpans spans 0 area buf

/-- `serde_json::Value`.  `number` keeps the `Display` text of the
`serde_json::Number`; `obj` lists the map's entries in iteration order. -/
inductive Json where
  | null : Json
  | bool : Bool → Json
  | number : List Char → Json
  | str : List Char → Json
  | arr : List Json → Json
  | obj : List (List Char × Json) → Json

/-- The loop of Rust's `str::lines().count()`: the flag records whether we
are inside an unterminated line.  Every `'\n'` terminates one line; a
trailing non-empty remainder counts as one more line.  (`'\r'` needs no
special case for counting: `\r\n` still contains exactly one `'\n'`.) -/
def linesCountAux : List Char → Bool → Nat
  | [], inside => if inside then 1 else 0
  | c :: cs, _ =>
    if c = '\n' then 1 + linesCountAux cs false else linesCountAux cs true

/-- `s.lines().count()` for `&str` embedded as `List Char`. -/
def linesCount (s : List Char) : Nat := linesCountAux s false

mutual

/-- `height_of_value` from `src/json_widget.rs`. -/
def height_of_value : Json → Nat
  | .null => 1
  | .bool _ => 1
  | .number _ => 1
  | .str s => linesCount s
  | .arr xs => if xs.isEmpty then 1 else heightSum xs + 2
  | .obj kvs => if kvs.isEmpty then 1 else heightSumValues kvs + 2

/-- `arr.iter().map(height_of_value).sum()`. -/
def heightSum : List Json → Nat
  | [] => 0
  | v :: vs => height_of_value v + heightSum vs

/-- `map.values().map(height_of_value).sum()`. -/
def heightSumValues : List (List Char × Json) → Nat
  | [] => 0
  | kv :: kvs => height_of_value kv.2 + heightSumValues kvs

end

/-- `format!("\"{}\"", s)`. -/
def quoteChars (s : List Char) : List Char := '"' :: (s ++ ['"'])

/-- `render_null`. -/
def render_null (area : Rect) (buf : Buffer) : Buffer :=
  renderSpan "null".toList Style.null area buf

/-- `render_bool`. -/
def render_bool (b : Bool) (area : Rect) (buf : Buffer) : Buffer :=
  renderSpan (if b then "true".toList else "false".toList) Style.boolean area buf

/-- `render_number`: renders the number's `Display` text. -/
def render_number (lit : List Char) (area : Rect) (buf : Buffer) : Buffer :=
  renderSpan lit Style.number area buf

/-- `render_string`: renders `"{s}"` as a single span. -/
def render_string (s : List Char) (area : Rect) (buf : Buffer) : Buffer :=
  renderSpan (quoteChars s) Style.string area buf

/-- `key_line.width()` for the line `["{key}"", ": "]`: the sum of the two
span widths, i.e. `key.length + 4`. -/
def keyLineWidth (k : List Char) : Nat := (quoteChars k).length + ([':', ' '] : List Char).length

mutual

/-- `render_value`: intersect with the buffer, return when empty, then
dispatch on the value kind.  The `arr`/`obj` branches carry the bodies of
`render_array`/`render_object` applied to the intersected area (the
standalone `render_array` and `render_object` below repeat those bodies
verbatim, and `render_value_arr`/`render_value_obj` prove the two
presentations equal).  `none` models a Rust panic (`u16` underflow). -/
def render_value (v : Json) (area : Rect) (buf : Buffer) : Option Buffer :=
  let a := area.intersection buf.area
  if a.isEmpty then some buf
  else
    match v with
    | .null => some (render_null a buf)
    | .bool b => some (render_bool b a buf)
    | .number lit => some (render_number lit a buf)
    | .str s => some (render_string s a buf)
    | .arr xs =>
      let a2 := a.intersection buf.area
      if a2.isEmpty then some buf
      else
        let buf1 := renderSpan ['['] Style.punctuation a2 buf
        if xs.isEmpty then
          some (renderSpan [']'] Style.punctuation ⟨a2.left + 1, a2.top, a2.width - 1, 1⟩ buf1)
        else
          match renderArrayElems xs (a2.top + 1) a2 buf1 with
          | none => none
          | some (line, buf2) =>
            some (renderSpan [']'] Style.punctuation ⟨a2.left, line, a2.width, 1⟩ buf2)
    | .obj kvs =>
      let a2 := a.intersection buf.area
      if a2.isEmpty then some buf
      else
        let buf1 := renderSpan ['{'] Style.punctuation a2 buf
        if kvs.isEmpty then
          some (renderSpan ['}'] Style.punctuation ⟨a2.left + 1, a2.top, a2.width - 1, 1⟩ buf1)
        else
          match renderObjectEntries kvs (a2.top + 1) a2 buf1 with
          | none => none
          | some (line, buf2) =>
            some (renderSpan ['}'] Style.punctuation ⟨a2.left, line, a2.width, 1⟩ buf2)

/-- The `for value in arr` loop of `render_array`: returns the final
`current_line` together with the buffer.  Each iteration computes
`Rect::new(area.left() + 2, current_line, area.width - 2, value_height)`;
the checked subtraction faults (`none`) when `area.width < 2`. -/
def renderArrayElems (vs : List Json) (currentLine : Nat) (a : Rect) (buf : Buffer) :
    Option (Nat × Buffer) :=
  match vs with
  | [] => some (currentLine, buf)
  | v :: rest =>
    match checkedSub a.width 2 with
    | none => none
    | some w =>
      let h := height_of_value v
      match render_value v ⟨a.left + 2, currentLine, w, h⟩ buf with
      | none => none
      | some buf2 => renderArrayElems rest (currentLine + h) a buf2

/-- The `for (key, value) in obj` loop of `render_object`.  Each iteration
renders the key line in `Rect::new(area.left() + 2, current_line,
area.width - 2, 1)` and the value in `Rect::new(area.left() + key_width + 2,
current_line, area.width - key_width - 2, value_height)`; the checked
subtractions fault when `area.width < 2` or `area.width - key_width < 2`. -/
def renderObjectEntries (kvs : List (List Char × Json)) (currentLine : Nat) (a : Rect)
    (buf : Buffer) : Option (Nat × Buffer) :=
  match kvs with
  | [] => some (currentLine, buf)
  | (k, v) :: rest =>
    match checkedSub a.width 2 with
    | none => none
    | some w2 =>
      let keyLine := [(quoteChars k, Style.key), ([':', ' '], Style.punctuation)]
      let keyWidth := keyLineWidth k
      let buf1 := renderLine keyLine ⟨a.left + 2, currentLine, w2, 1⟩ buf
      let h := height_of_value v
      match checkedSub a.width keyWidth with
      | none => none
      | some t =>
        match checkedSub t 2 with
        | none => none
        | some w3 =>
          match render_value v ⟨a.left + keyWidth + 2, currentLine, w3, h⟩ buf1 with
          | none => none
          | some buf2 => renderObjectEntries rest (currentLine + h) a buf2

end

/-- `render_array` from `src/json_widget.rs`: opening bracket over the
whole (intersected) area, the element loop, then the closing bracket at
`Rect::new(area.left(), current_line, area.width, 1)`.  An empty array
instead puts `]` right after `[` on the same row. -/
def render_array (arr : List Json) (area : Rect) (buf : Buffer) : Option Buffer :=
  let a2 := area.intersection buf.area
  if a2.isEmpty then some buf
  else
    let buf1 := renderSpan ['['] Style.punctuation a2 buf
    if arr.isEmpty then
      some (renderSpan [']'] Style.punctuation ⟨a2.left + 1, a2.top, a2.width - 1, 1⟩ buf1)
    else
      match renderArrayElems arr (a2.top + 1) a2 buf1 with
      | none => none
      | some (line, buf2) =>
        some (renderSpan [']'] Style.punctuation ⟨a2.left, line, a2.width, 1⟩ buf2)

/-- `render_object` from `src/json_widget.rs`, analogous to
`render_array`. -/
def render_object (kvs : List (List Char × Json)) (area : Rect) (buf : Buffer) : Option Buffer :=
  let a2 := area.intersection buf.area
  if a2.isEmpty then some buf
  else
    let buf1 := renderSpan ['{'] Style.punctuation a2 buf
    if kvs.isEmpty then
      some (renderSpan ['}'] Style.punctuation ⟨a2.left + 1, a2.top, a2.width - 1, 1⟩ buf1)
    else
      match renderObjectEntries kvs (a2.top + 1) a2 buf1 with
      | none => none
      | some (line, buf2) =>
        some (renderSpan ['}'] Style.punctuation ⟨a2.left, line, a2.width, 1⟩ buf2)


/-- `JsonWidget`: the widget state, holding the loaded document.
`#[derive(Default)]` gives `Value::default()`, which in `serde_json` is
`Value::Null`. -/
structure JsonWidget where
  json : Json

/-- `JsonWidget::default()`. -/
def JsonWidget.mkDefault : JsonWidget := ⟨.null⟩

/-- `JsonWidget::load`: `self.json = serde_json::from_reader(file)
.wrap_err(...)?; Ok(())`.  Deserialization itself is an external
collaborator (`serde_json`), so its outcome on the reader's bytes is the
`Except` input; on a parse error the `?` operator returns before the
assignment, so `self.json` keeps its previous value. -/
def JsonWidget.load (w : JsonWidget) (parsed : Except (List Char) Json) :
    JsonWidget × Except (List Char) Unit :=
  match parsed with
  | .error e => (w, .error e)
  | .ok v => ({ json := v }, .ok ())

/-- Modelled from the spec: `JsonWidget::next_edit`, the `next` cursor
command.  It is called from `handle_key` in `src/main.rs` but its
definition is not among the sources, so it follows spec section 4.4:
`next`: CursorIndex = min(CursorIndex + 1, N - 1) (saturating; no
wraparound), where `n` is the number of edit positions. -/
def next_edit (n i : Nat) : Nat := min (i + 1) (n - 1)

/-- Modelled from the spec: `JsonWidget::prev_edit`, the `prev` cursor
command, called from `handle_key` in `src/main.rs` but not defined in the
sources.  Spec section 4.4: `prev`: CursorIndex = max(CursorIndex - 1, 0)
(saturating; no wraparound); on `Nat`, truncated subtraction is exactly
this saturation. -/
def prev_edit (i : Nat) : Nat := i - 1

/-- The array layout the claim describes, processing elements from index
`i` on: element `i` of `arr0` is rendered in the sub-region whose left
edge is `R.left + 2`, whose top row is `R.top + 1` plus the sum of the
heights of elements `0..i`, and whose height is that element's
`height_of_value` (`layoutElemsSpec arr0 R 0 buf` lays out the whole
array). -/
def layoutElemsSpec (arr0 : List Json) (R : Rect) (i : Nat) (buf : Buffer) : Option Buffer :=
  if h : i < arr0.length then
    match render_value arr0[i] ⟨R.left + 2, R.top + 1 + heightSum (arr0.take i),
        R.width - 2, height_of_value arr0[i]⟩ buf with
    | none => none
    | some b => layoutElemsSpec arr0 R (i + 1) b
  else some buf
termination_by arr0.length - i

/-- The entry layout the claim describes, processing entries from index
`i` on: entry `i` of `kvs0` puts the quoted key at column `R.left + 2` on
the entry's first row, the `": "` separator immediately after the quoted
key, and the entry's value on that same row at a column offset from
`R.left + 2` equal to the key label's rendered width plus the separator
width (`keyLineWidth`), in the remaining width of the region. -/
def layoutEntriesSpec (kvs0 : List (List Char × Json)) (R : Rect) (i : Nat) (buf : Buffer) :
    Option Buffer :=
  if h : i < kvs0.length then
    match render_value (kvs0[i]).2
        ⟨R.left + 2 + keyLineWidth (kvs0[i]).1, R.top + 1 + heightSumValues (kvs0.take i),
          R.width - 2 - keyLineWidth (kvs0[i]).1, height_of_value (kvs0[i]).2⟩
        (renderSpan [':', ' '] Style.punctuation
          ⟨R.left + 2 + (quoteChars (kvs0[i]).1).length,
            R.top + 1 + heightSumValues (kvs0.take i),
            R.width - 2 - (quoteChars (kvs0[i]).1).length, 1⟩
          (renderSpan (quoteChars (kvs0[i]).1) Style.key
            ⟨R.left + 2, R.top + 1 + heightSumValues (kvs0.take i), R.width - 2, 1⟩ buf)) with
    | none => none
    | some b3 => layoutEntriesSpec kvs0 R (i + 1) b3
  else some buf
termination_by kvs0.length - i

example : height_of_value (.arr [.null, .bool true, .number ['4', '2']]) = 5 := by decide
example : height_of_value (.str []) = 0 := by decide
example : height_of_value (.str ['a', '\n']) = 1 := by decide
example : height_of_value (.str ['a', '\n', 'b']) = 2 := by decide
example : height_of_value (.obj [(['k'], .number ['4', '2']), (['j'], .arr [.null])]) = 6 := by decide

/-- The `arr` branch of `render_value` is exactly `render_array` on the
intersected area, as in the source. -/
theorem render_value_arr (xs : List Json) (area : Rect) (buf : Buffer) :
    render_value (.arr xs) area buf =
      if (area.intersection buf.area).isEmpty then some buf
      else render_array xs (area.intersection buf.area) buf := rfl

/-- The `obj` branch of `render_value` is exactly `render_object` on the
intersected area, as in the source. -/
theorem render_value_obj (kvs : List (List Char × Json)) (area : Rect) (buf : Buffer) :
    render_value (.obj kvs) area buf =
      if (area.intersection buf.area).isEmpty then some buf
      else render_object kvs (area.intersection buf.area) buf := rfl

/-- Every suffix scanned from inside an unterminated line yields at least
one line. -/
theorem one_le_linesCountAux_true (s : List Char) : 1 ≤ linesCountAux s true := by
  induction s with
  | nil => simp [linesCountAux]
  | cons c cs ih =>
    by_cases hc : c = '\n'
    · simp only [linesCountAux, hc, if_true]
      omega
    · simpa [linesCountAux, hc] using ih

/-- Closed form of the `str::lines().count()` loop: one line per `'\n'`,
plus one for a trailing unterminated line (or for the initial `inside`
state when the input is exhausted). -/
theorem linesCountAux_closed (s : List Char) : ∀ inside : Bool,
    linesCountAux s inside =
      s.count '\n' +
        (match s.getLast? with
         | none => if inside then 1 else 0
         | some c => if c = '\n' then 0 else 1) := by
  induction s with
  | nil => intro inside; simp [linesCountAux]
  | cons c cs ih =>
    intro inside
    by_cases hne : cs = []
    · subst hne
      by_cases hc : c = '\n' <;> simp [linesCountAux, hc, List.count_cons]
    · obtain ⟨e, he⟩ : ∃ e, cs.getLast? = some e := by
        rcases cs with _ | ⟨d, ds⟩
        · exact absurd rfl hne
        · exact ⟨(d :: ds).getLast (by simp), List.getLast?_eq_getLast _ _⟩
      have hlast : (c :: cs).getLast? = some e := by
        rcases cs with _ | ⟨d, ds⟩
        · exact absurd rfl hne
        · rw [List.getLast?_cons_cons]; exact he
      have h1 : linesCountAux (c :: cs) inside
          = if c = '\n' then 1 + linesCountAux cs false else linesCountAux cs true := rfl
      rw [h1, hlast, ih true, ih false, he]
      by_cases hc : c = '\n' <;> by_cases he2 : e = '\n' <;>
        simp [hc, he2, List.count_cons] <;> omega

/-- The count of lines of a `&str` as the source computes it, in closed
form. -/
theorem linesCount_closed (s : List Char) :
    linesCount s = s.count '\n' + (if s = [] ∨ s.getLast? = some '\n' then 0 else 1) := by
  rw [linesCount, linesCountAux_closed s false]
  rcases h : s.getLast? with _ | e
  · have : s = [] := List.getLast?_eq_none_iff.mp h
    simp [this]
  · have : s ≠ [] := by
      intro hs; rw [hs] at h; simp at h
    by_cases he : e = '\n' <;> simp [this, he]

/-- `heightSum` is the sum of the element heights. -/
theorem heightSum_eq (xs : List Json) : heightSum xs = (xs.map height_of_value).sum := by
  induction xs with
  | nil => simp [heightSum]
  | cons v vs ih => simp [heightSum, ih]

/-- `heightSumValues` is the sum of the entry values' heights. -/
theorem heightSumValues_eq (kvs : List (List Char × Json)) :
    heightSumValues kvs = (kvs.map (fun kv => height_of_value kv.2)).sum := by
  induction kvs with
  | nil => simp [heightSumValues]
  | cons kv rest ih => simp [heightSumValues, ih]

/-- C2, corrected: every JSON value other than the empty string value has
`height_of_value` at least 1.  The empty string is the one exception:
its `lines().count()` is `0`, so the claim as stated (which includes the
empty string) fails. -/
theorem height_of_value_pos (v : Json) (h : v ≠ Json.str []) : 1 ≤ height_of_value v := by
  cases v with
  | null => simp [height_of_value]
  | bool b => simp [height_of_value]
  | number l => simp [height_of_value]
  | str s =>
    rcases s with _ | ⟨c, cs⟩
    · exact absurd rfl h
    · by_cases hc : c = '\n'
      · simp only [height_of_value, linesCount, linesCountAux, hc, if_true]
        omega
      · simp only [height_of_value, linesCount, linesCountAux, hc, if_false]
        exact one_le_linesCountAux_true cs
  | arr xs =>
    rcases xs with _ | ⟨v, vs⟩
    · simp [height_of_value]
    · simp only [height_of_value, List.isEmpty_cons, Bool.false_eq_true, if_false]
      omega
  | obj kvs =>
    rcases kvs with _ | ⟨kv, rest⟩
    · simp [height_of_value]
    · simp only [height_of_value, List.isEmpty_cons, Bool.false_eq_true, if_false]
      omega

/-- Witness for `height_of_value_pos` at the concrete value `null`. -/
theorem height_of_value_pos_witness : 1 ≤ height_of_value Json.null :=
  height_of_value_pos Json.null (fun h => Json.noConfusion h)

/-- C2, counterexample: the empty string value has height 0, not at
least 1. -/
theorem height_of_value_empty_string_cex : ¬ 1 ≤ height_of_value (Json.str []) := by decide

/-- C3, corrected: the height of a string value is the count of its lines
under Rust `str::lines` semantics — the number of embedded `'\n'`
characters, plus one only when the string is non-empty and does not end in
`'\n'`.  The claim's formula (line breaks plus 1, with the empty string at
height 1 and a break-terminated string at breaks + 1) overcounts exactly
the empty string and break-terminated strings. -/
theorem string_height_linesCount (s : List Char) :
    height_of_value (Json.str s) =
      s.count '\n' + (if s = [] ∨ s.getLast? = some '\n' then 0 else 1) := by
  rw [show height_of_value (Json.str s) = linesCount s from by simp [height_of_value]]
  exact linesCount_closed s

/-- C3, counterexample: for the empty string the claim's formula gives
`0 + 1 = 1`, but `height_of_value` gives `0`. -/
theorem string_height_empty_cex :
    ¬ height_of_value (Json.str []) = List.count '\n' ([] : List Char) + 1 := by decide

/-- C4, confirmed: an array's height is 1 when empty and the sum of its
elements' heights plus 2 otherwise; an object's height is 1 when empty
and the sum of its entry values' heights plus 2 otherwise, with keys
contributing no height of their own. -/
theorem container_height_law :
    (∀ xs : List Json, height_of_value (Json.arr xs) =
        if xs.isEmpty then 1 else (xs.map height_of_value).sum + 2) ∧
    (∀ kvs : List (List Char × Json), height_of_value (Json.obj kvs) =
        if kvs.isEmpty then 1 else (kvs.map (fun kv => height_of_value kv.2)).sum + 2) := by
  constructor
  · intro xs
    rcases xs with _ | ⟨v, vs⟩
    · simp [height_of_value]
    · simp [height_of_value, heightSum_eq]
  · intro kvs
    rcases kvs with _ | ⟨kv, rest⟩
    · simp [height_of_value]
    · simp [height_of_value, heightSumValues_eq]

/-- C7, confirmed: on a failed deserialization `load` surfaces the error
and keeps the previously stored value unchanged; on success it returns
`Ok` and replaces the stored value wholesale. -/
theorem load_error_keeps_value (w : JsonWidget) (e : List Char) (v : Json) :
    JsonWidget.load w (.error e) = (w, .error e) ∧
    JsonWidget.load w (.ok v) = ({ json := v }, .ok ()) :=
  ⟨rfl, rfl⟩

/-- C8, confirmed against the spec-modelled cursor commands: `next` is
`min (i + 1) (n - 1)`, `prev` is `max (i - 1) 0`, both saturate at the
boundaries without wraparound, and `next` then `prev` from an interior
index returns to it. -/
theorem cursor_next_prev (n i : Nat) (hn : 1 ≤ n) (_hi : i < n) :
    next_edit n i = min (i + 1) (n - 1) ∧
    prev_edit i = max (i - 1) 0 ∧
    next_edit n (n - 1) = n - 1 ∧
    prev_edit 0 = 0 ∧
    (i + 1 ≤ n - 1 → prev_edit (next_edit n i) = i) := by
  refine ⟨rfl, by simp [prev_edit], ?_, rfl, ?_⟩
  · simp only [next_edit]
    omega
  · intro h
    simp only [next_edit, prev_edit]
    omega

/-- Witness for `cursor_next_prev` with 3 edit positions and the interior
cursor index 1. -/
theorem cursor_next_prev_witness :
    next_edit 3 1 = min (1 + 1) (3 - 1) ∧
    prev_edit 1 = max (1 - 1) 0 ∧
    next_edit 3 (3 - 1) = 3 - 1 ∧
    prev_edit 0 = 0 ∧
    (1 + 1 ≤ 3 - 1 → prev_edit (next_edit 3 1) = 1) :=
  cursor_next_prev 3 1 (by decide) (by decide)

/-- C1, code bug: the claim (and spec section 7) promises that rendering
never faults for any region, all geometry being clipped rather than
asserted; but a non-empty array in a clipped region of width 1 makes
`render_array` compute `area.width - 2 = 1 - 2` in `u16` — an arithmetic
underflow (a panic under Rust's overflow checks), modelled by
`checkedSub` — so `render_value` faults (`none`) instead of completing. -/
theorem render_width_one_underflows :
    render_value (Json.arr [Json.null]) ⟨0, 0, 1, 3⟩ (Buffer.empty ⟨0, 0, 5, 5⟩) = none := by
  decide

/-- C9, confirmed: rendering a non-empty container is not confined to its
region's height.  The array `[null]` has computed height 3; rendered into
a region of height 2 it writes its closing bracket at row 2, which is at
the region's `bottom` (strictly below the region's rows), inside the
buffer. -/
theorem render_overflows_region_height :
    height_of_value (Json.arr [Json.null]) = 3 ∧
    (Rect.mk 0 0 10 2).bottom = 2 ∧
    (render_value (Json.arr [Json.null]) (Rect.mk 0 0 10 2) (Buffer.empty ⟨0, 0, 10, 5⟩)).map
        (fun b => b.getCell 0 2) = some ⟨']', Style.punctuation⟩ ∧
    (Buffer.empty ⟨0, 0, 10, 5⟩).getCell 0 2 = ⟨' ', Style.defaultStyle⟩ := by
  decide


/-- `Rect.contains` unfolded to arithmetic. -/
theorem Rect.contains_iff (r : Rect) (px py : Nat) :
    r.contains px py = true ↔
      r.x ≤ px ∧ px < r.x + r.width ∧ r.y ≤ py ∧ py < r.y + r.height := by
  simp [Rect.contains, Rect.right, Rect.bottom, Bool.and_eq_true, decide_eq_true_eq, and_assoc]

/-- The row-major index of a contained cell is inside the content list of a
well-formed buffer. -/
theorem index_lt_of_contains {r : Rect} {px py : Nat} (h : r.contains px py = true) :
    (py - r.y) * r.width + (px - r.x) < r.width * r.height := by
  rw [Rect.contains_iff] at h
  obtain ⟨h1, h2, h3, h4⟩ := h
  calc (py - r.y) * r.width + (px - r.x)
      < (py - r.y) * r.width + r.width := by omega
    _ = ((py - r.y) + 1) * r.width := by ring
    _ ≤ r.height * r.width := Nat.mul_le_mul_right _ (by omega)
    _ = r.width * r.height := Nat.mul_comm _ _

/-- Row-major encoding is injective on in-row-bounds columns. -/
theorem rowcol_inj {w r1 c1 r2 c2 : Nat} (h1 : c1 < w) (h2 : c2 < w)
    (h : r1 * w + c1 = r2 * w + c2) : r1 = r2 ∧ c1 = c2 := by
  have hr : r1 = r2 := by
    by_contra hne
    rcases Nat.lt_or_ge r1 r2 with hlt | hge
    · have h4 : (r1 + 1) * w ≤ r2 * w := Nat.mul_le_mul_right w (by omega)
      have h5 : (r1 + 1) * w = r1 * w + w := by ring
      omega
    · have hlt : r2 < r1 := by omega
      have h4 : (r2 + 1) * w ≤ r1 * w := Nat.mul_le_mul_right w (by omega)
      have h5 : (r2 + 1) * w = r2 * w + w := by ring
      omega
  exact ⟨hr, by subst hr; omega⟩

/-- `setCell` leaves the buffer's area unchanged. -/
theorem Buffer.area_setCell (buf : Buffer) (px py : Nat) (c : Cell) :
    (buf.setCell px py c).area = buf.area := by
  unfold Buffer.setCell
  split <;> rfl

/-- `setCell` leaves the content length unchanged. -/
theorem Buffer.length_setCell (buf : Buffer) (px py : Nat) (c : Cell) :
    (buf.setCell px py c).content.length = buf.content.length := by
  unfold Buffer.setCell
  split <;> simp

/-- Reading back the cell just written. -/
theorem Buffer.getCell_setCell_same (buf : Buffer) (px py : Nat) (c : Cell)
    (hlen : buf.content.length = buf.area.width * buf.area.height)
    (hc : buf.area.contains px py = true) :
    (buf.setCell px py c).getCell px py = c := by
  unfold Buffer.setCell Buffer.getCell
  simp only [hc, if_true]
  rw [List.getD_eq_getElem?_getD, List.getElem?_set_self]
  · rfl
  · rw [hlen]
    exact index_lt_of_contains hc

/-- Writing one cell does not change any other cell. -/
theorem Buffer.getCell_setCell_ne (buf : Buffer) (px py qx qy : Nat) (c : Cell)
    (hne : ¬(px = qx ∧ py = qy)) :
    (buf.setCell px py c).getCell qx qy = buf.getCell qx qy := by
  unfold Buffer.setCell Buffer.getCell
  by_cases h1 : buf.area.contains px py = true
  · simp only [h1, if_true]
    by_cases h2 : buf.area.contains qx qy = true
    · simp only [h2, if_true]
      rw [List.getD_eq_getElem?_getD, List.getD_eq_getElem?_getD, List.getElem?_set_ne]
      intro heq
      have hxp : px - buf.area.x < buf.area.width := by
        rw [Rect.contains_iff] at h1; omega
      have hxq : qx - buf.area.x < buf.area.width := by
        rw [Rect.contains_iff] at h2; omega
      obtain ⟨hr, hcc⟩ := rowcol_inj hxp hxq heq
      rw [Rect.contains_iff] at h1 h2
      exact hne ⟨by omega, by omega⟩
    · simp only [h2]
      rfl
  · simp [h1]

/-- `writeChars` leaves the buffer's area unchanged. -/
theorem writeChars_area (text : List Char) : ∀ (st : Style) (px py maxX : Nat) (buf : Buffer),
    (writeChars text st px py maxX buf).area = buf.area := by
  induction text with
  | nil => intros; rfl
  | cons c cs ih =>
    intro st px py maxX buf
    unfold writeChars
    split
    · rfl
    · rw [ih, Buffer.area_setCell]

/-- `writeChars` leaves the content length unchanged. -/
theorem writeChars_length (text : List Char) : ∀ (st : Style) (px py maxX : Nat) (buf : Buffer),
    (writeChars text st px py maxX buf).content.length = buf.content.length := by
  induction text with
  | nil => intros; rfl
  | cons c cs ih =>
    intro st px py maxX buf
    unfold writeChars
    split
    · rfl
    · rw [ih, Buffer.length_setCell]

/-- `writeChars` never touches a column left of its starting column. -/
theorem getCell_writeChars_lt (text : List Char) :
    ∀ (st : Style) (px py maxX qx qy : Nat) (buf : Buffer), qx < px →
      (writeChars text st px py maxX buf).getCell qx qy = buf.getCell qx qy := by
  induction text with
  | nil => intros; rfl
  | cons c cs ih =>
    intro st px py maxX qx qy buf hq
    unfold writeChars
    split
    · rfl
    · rw [ih _ _ _ _ _ _ _ (by omega), Buffer.getCell_setCell_ne]
      intro h
      omega

/-- The cell `j` columns into a `writeChars` run holds the `j`-th character
of the text, provided the run reaches it before the clipping column. -/
theorem getCell_writeChars (text : List Char) :
    ∀ (st : Style) (px py maxX j : Nat) (buf : Buffer),
      buf.content.length = buf.area.width * buf.area.height →
      buf.area.contains (px + j) py = true →
      px + j + 1 ≤ maxX →
      j < text.length →
      (writeChars text st px py maxX buf).getCell (px + j) py =
        ⟨text.getD j ' ', st⟩ := by
  induction text with
  | nil =>
    intro st px py maxX j buf _ _ _ hj
    simp at hj
  | cons c cs ih =>
    intro st px py maxX j buf hlen hcont hmax hj
    unfold writeChars
    rw [if_neg (by omega)]
    rcases j with _ | j2
    · rw [getCell_writeChars_lt cs _ _ _ _ _ _ _ (by omega)]
      have hcont2 : buf.area.contains px py = true := by
        have : px + 0 = px := by omega
        rw [← this]
        exact hcont
      rw [show px + 0 = px from by omega, Buffer.getCell_setCell_same buf px py ⟨c, st⟩ hlen hcont2]
      simp [List.getD]
    · have hsh : px + (j2 + 1) = (px + 1) + j2 := by omega
      rw [hsh]
      rw [ih st (px + 1) py maxX j2 _ ?_ ?_ (by omega) (by simpa using hj)]
      · simp [List.getD]
      · rw [Buffer.length_setCell, Buffer.area_setCell]
        exact hlen
      · rw [Buffer.area_setCell, ← hsh]
        exact hcont

/-- A non-empty rectangle equal to its intersection with another lies
inside it. -/
theorem sub_of_intersection_self {a b : Rect} (h : a.intersection b = a)
    (hne : a.isEmpty = false) :
    b.x ≤ a.x ∧ a.x + a.width ≤ b.x + b.width ∧ b.y ≤ a.y ∧ a.y + a.height ≤ b.y + b.height := by
  have hw : a.width ≠ 0 ∧ a.height ≠ 0 := by
    simpa [Rect.isEmpty] using hne
  have hx := congrArg Rect.x h
  have hy := congrArg Rect.y h
  have hwid := congrArg Rect.width h
  have hht := congrArg Rect.height h
  simp only [Rect.intersection, Rect.right, Rect.bottom] at hx hy hwid hht
  omega

/-- `renderSpan` on a non-empty area already inside the buffer starts
writing at the area's top-left cell. -/
theorem renderSpan_sub (text : List Char) (st : Style) {a : Rect} {buf : Buffer}
    (hsub : a.intersection buf.area = a) (hne : a.isEmpty = false) :
    renderSpan text st a buf =
      writeChars text st a.x a.y (min (a.x + text.length) (a.x + a.width)) buf := by
  rw [renderSpan]
  simp [hsub, hne, Rect.left, Rect.top, Rect.right]

/-- C10, confirmed: a default-constructed `JsonWidget` holds the JSON
value `null` (`Value::default()` is `Null`), so rendering it into any
non-empty region that lies in the buffer writes the text `null` — clipped
to the region's width — starting at the region's top-left cell, in the
null style. -/
theorem default_widget_renders_null (a : Rect) (buf : Buffer)
    (hsub : a.intersection buf.area = a)
    (hne : a.isEmpty = false)
    (hlen : buf.content.length = buf.area.width * buf.area.height) :
    ∃ b, render_value JsonWidget.mkDefault.json a buf = some b ∧
      ∀ j, j < min 4 a.width →
        b.getCell (a.x + j) a.y = ⟨"null".toList.getD j ' ', Style.null⟩ := by
  refine ⟨render_null a buf, ?_, ?_⟩
  · show render_value Json.null a buf = some (render_null a buf)
    simp [render_value, hsub, hne]
  · intro j hj
    have hdims := sub_of_intersection_self hsub hne
    have hwne : a.width ≠ 0 ∧ a.height ≠ 0 := by
      simpa [Rect.isEmpty] using hne
    have hlen4 : ("null".toList).length = 4 := by decide
    rw [render_null, renderSpan_sub _ _ hsub hne]
    have hcont : buf.area.contains (a.x + j) a.y = true := by
      rw [Rect.contains_iff]
      omega
    exact getCell_writeChars "null".toList Style.null a.x a.y
      (min (a.x + "null".toList.length) (a.x + a.width)) j buf hlen hcont
      (by rw [hlen4]; omega) (by omega)

/-- Witness for `default_widget_renders_null` on a 10 by 1 buffer. -/
theorem default_widget_renders_null_witness :
    ∃ b, render_value JsonWidget.mkDefault.json (Rect.mk 0 0 10 1)
        (Buffer.empty (Rect.mk 0 0 10 1)) = some b ∧
      ∀ j, j < min 4 (Rect.mk 0 0 10 1).width →
        b.getCell ((Rect.mk 0 0 10 1).x + j) (Rect.mk 0 0 10 1).y =
          ⟨"null".toList.getD j ' ', Style.null⟩ :=
  default_widget_renders_null (Rect.mk 0 0 10 1) (Buffer.empty (Rect.mk 0 0 10 1))
    (by decide) (by decide) (by decide)

/-- `heightSum` distributes over append. -/
theorem heightSum_append (l1 l2 : List Json) :
    heightSum (l1 ++ l2) = heightSum l1 + heightSum l2 := by
  induction l1 with
  | nil => simp [heightSum]
  | cons v vs ih => simp [heightSum, ih]; omega

/-- `heightSumValues` distributes over append. -/
theorem heightSumValues_append (l1 l2 : List (List Char × Json)) :
    heightSumValues (l1 ++ l2) = heightSumValues l1 + heightSumValues l2 := by
  induction l1 with
  | nil => simp [heightSumValues]
  | cons kv rest ih => simp [heightSumValues, ih]; omega

/-- The running-cursor element loop of `render_array` computes exactly the
partial-sum row layout of `layoutElemsSpec`, and ends with its row cursor
one past the last element's rows. -/
theorem renderArrayElems_spec (arr0 : List Json) (R : Rect) (hw : 2 ≤ R.width) :
    ∀ (suffix : List Json) (i : Nat) (buf : Buffer), arr0.drop i = suffix →
      renderArrayElems suffix (R.top + 1 + heightSum (arr0.take i)) R buf =
        (match layoutElemsSpec arr0 R i buf with
         | none => none
         | some b => some (R.top + 1 + heightSum arr0, b)) := by
  intro suffix
  induction suffix with
  | nil =>
    intro i buf hdrop
    have hle : arr0.length ≤ i := List.drop_eq_nil_iff.mp hdrop
    have htake : arr0.take i = arr0 := List.take_of_length_le hle
    rw [renderArrayElems, layoutElemsSpec, dif_neg (by omega : ¬ i < arr0.length), htake]
  | cons v rest ih =>
    intro i buf hdrop
    have hi : i < arr0.length := by
      by_contra hge
      rw [List.drop_eq_nil_of_le (by omega)] at hdrop
      exact List.noConfusion hdrop
    have hv0 : arr0[i]? = some v := by
      have h0 : (arr0.drop i)[0]? = some v := by
        rw [hdrop]
        simp
      rw [List.getElem?_drop] at h0
      simpa using h0
    have hv : arr0[i] = v := by
      simpa [List.getElem?_eq_getElem hi] using hv0
    have hdrop2 : arr0.drop (i + 1) = rest := by
      have h2 : (arr0.drop i).drop 1 = arr0.drop (i + 1) := List.drop_drop 1 i arr0
      rw [← h2, hdrop]
      rfl
    rw [renderArrayElems, layoutElemsSpec, dif_pos hi,
      show checkedSub R.width 2 = some (R.width - 2) from by rw [checkedSub, if_pos hw]]
    dsimp only
    rw [hv]
    cases hrv : render_value v ⟨R.left + 2, R.top + 1 + heightSum (arr0.take i),
        R.width - 2, height_of_value v⟩ buf with
    | none => rfl
    | some b =>
      dsimp only
      have hline : R.top + 1 + heightSum (arr0.take i) + height_of_value v
          = R.top + 1 + heightSum (arr0.take (i + 1)) := by
        rw [List.take_succ, hv0, heightSum_append]
        simp [heightSum]
        omega
      rw [hline]
      exact ih (i + 1) b hdrop2

/-- C5, corrected: for a non-empty array rendered into a region `R` that
lies inside the buffer and has width at least 2 (so the element width
computation `area.width - 2` does not underflow), `render_array` writes
the opening bracket over `R`'s top-left, renders element `i` in the
sub-region with left edge `R.left + 2`, top row `R.top + 1` plus the sum
of the heights of elements `0..i`, and height `height_of_value` of the
element, and writes the closing bracket on its own full-width row at
column `R.left` on the row immediately after the last element's region. -/
theorem array_layout_spec (arr : List Json) (R : Rect) (buf : Buffer)
    (hne : arr.isEmpty = false) (hw : 2 ≤ R.width)
    (hsub : R.intersection buf.area = R) (hempty : R.isEmpty = false) :
    render_array arr R buf =
      match layoutElemsSpec arr R 0 (renderSpan ['['] Style.punctuation R buf) with
      | none => none
      | some b => some (renderSpan [']'] Style.punctuation
          ⟨R.left, R.top + 1 + heightSum arr, R.width, 1⟩ b) := by
  rw [render_array]
  simp only [hsub, hempty, Bool.false_eq_true, if_false, hne]
  have h0 := renderArrayElems_spec arr R hw arr 0
    (renderSpan ['['] Style.punctuation R buf) (List.drop_zero arr)
  simp only [List.take_zero, heightSum, Nat.add_zero] at h0
  rw [h0]
  cases hspec : layoutElemsSpec arr R 0 (renderSpan ['['] Style.punctuation R buf) with
  | none => rfl
  | some b => rfl

/-- C5, counterexample: the claim quantifies over every region, but in a
width-1 region a non-empty array faults on the `area.width - 2` underflow
(`none`), so none of the described writes happen. -/
theorem array_layout_width1_cex :
    render_array [Json.null] ⟨0, 0, 1, 3⟩ (Buffer.empty ⟨0, 0, 5, 5⟩) = none := by decide

/-- Witness for `array_layout_spec`: the array `[null]` in a 10 by 3
region. -/
theorem array_layout_spec_witness :
    render_array [Json.null] (Rect.mk 0 0 10 3) (Buffer.empty (Rect.mk 0 0 10 3)) =
      match layoutElemsSpec [Json.null] (Rect.mk 0 0 10 3) 0
          (renderSpan ['['] Style.punctuation (Rect.mk 0 0 10 3)
            (Buffer.empty (Rect.mk 0 0 10 3))) with
      | none => none
      | some b => some (renderSpan [']'] Style.punctuation
          ⟨(Rect.mk 0 0 10 3).left, (Rect.mk 0 0 10 3).top + 1 + heightSum [Json.null],
            (Rect.mk 0 0 10 3).width, 1⟩ b) :=
  array_layout_spec [Json.null] (Rect.mk 0 0 10 3) (Buffer.empty (Rect.mk 0 0 10 3))
    (by decide) (by decide) (by decide) (by decide)

/-- A two-span line renders its first span at the area's left edge and its
second span immediately after the first span's width. -/
theorem renderLine_pair (t1 : List Char) (s1 : Style) (t2 : List Char) (s2 : Style)
    (A : Rect) (buf : Buffer) :
    renderLine [(t1, s1), (t2, s2)] A buf =
      renderSpan t2 s2 ⟨A.x + t1.length, A.y, A.width - t1.length, A.height⟩
        (renderSpan t1 s1 A buf) := by
  rw [renderLine, renderLineSpans, renderLineSpans, renderLineSpans]
  simp only [Nat.add_zero, Nat.sub_zero, Nat.zero_add]

/-- The running-cursor entry loop of `render_object` computes exactly the
per-entry key/separator/value layout of `layoutEntriesSpec`, and ends with
its row cursor one past the last entry's rows. -/
theorem renderObjectEntries_spec (kvs0 : List (List Char × Json)) (R : Rect)
    (hk : ∀ kv ∈ kvs0, keyLineWidth kv.1 + 2 ≤ R.width) :
    ∀ (suffix : List (List Char × Json)) (i : Nat) (buf : Buffer), kvs0.drop i = suffix →
      renderObjectEntries suffix (R.top + 1 + heightSumValues (kvs0.take i)) R buf =
        (match layoutEntriesSpec kvs0 R i buf with
         | none => none
         | some b => some (R.top + 1 + heightSumValues kvs0, b)) := by
  intro suffix
  induction suffix with
  | nil =>
    intro i buf hdrop
    have hle : kvs0.length ≤ i := List.drop_eq_nil_iff.mp hdrop
    have htake : kvs0.take i = kvs0 := List.take_of_length_le hle
    rw [renderObjectEntries, layoutEntriesSpec, dif_neg (by omega : ¬ i < kvs0.length), htake]
  | cons kv rest ih =>
    intro i buf hdrop
    have hi : i < kvs0.length := by
      by_contra hge
      rw [List.drop_eq_nil_of_le (by omega)] at hdrop
      exact List.noConfusion hdrop
    have hv0 : kvs0[i]? = some kv := by
      have h0 : (kvs0.drop i)[0]? = some kv := by
        rw [hdrop]
        simp
      rw [List.getElem?_drop] at h0
      simpa using h0
    have hv : kvs0[i] = kv := by
      simpa [List.getElem?_eq_getElem hi] using hv0
    have hdrop2 : kvs0.drop (i + 1) = rest := by
      have h2 : (kvs0.drop i).drop 1 = kvs0.drop (i + 1) := List.drop_drop 1 i kvs0
      rw [← h2, hdrop]
      rfl
    have hkw : keyLineWidth kv.1 + 2 ≤ R.width := hk kv (hv ▸ kvs0.getElem_mem hi)
    have hkw4 : 4 ≤ keyLineWidth kv.1 := by
      simp [keyLineWidth, quoteChars]
    obtain ⟨k, v⟩ := kv
    dsimp only at hkw hkw4
    rw [renderObjectEntries, layoutEntriesSpec, dif_pos hi,
      show checkedSub R.width 2 = some (R.width - 2) from by rw [checkedSub, if_pos (by omega)]]
    dsimp only
    rw [renderLine_pair,
      show checkedSub R.width (keyLineWidth k) = some (R.width - keyLineWidth k) from by
        rw [checkedSub, if_pos (by omega)]]
    dsimp only
    rw [show checkedSub (R.width - keyLineWidth k) 2 = some (R.width - keyLineWidth k - 2) from by
      rw [checkedSub, if_pos (by omega)]]
    dsimp only
    rw [hv]
    dsimp only
    have e1 : R.left + keyLineWidth k + 2 = R.left + 2 + keyLineWidth k := by omega
    have e2 : R.width - keyLineWidth k - 2 = R.width - 2 - keyLineWidth k := by omega
    rw [e1, e2]
    cases hrv : render_value v
        ⟨R.left + 2 + keyLineWidth k, R.top + 1 + heightSumValues (kvs0.take i),
          R.width - 2 - keyLineWidth k, height_of_value v⟩
        (renderSpan [':', ' '] Style.punctuation
          ⟨R.left + 2 + (quoteChars k).length, R.top + 1 + heightSumValues (kvs0.take i),
            R.width - 2 - (quoteChars k).length, 1⟩
          (renderSpan (quoteChars k) Style.key
            ⟨R.left + 2, R.top + 1 + heightSumValues (kvs0.take i), R.width - 2, 1⟩ buf)) with
    | none => rfl
    | some b3 =>
      dsimp only
      have hline : R.top + 1 + heightSumValues (kvs0.take i) + height_of_value v
          = R.top + 1 + heightSumValues (kvs0.take (i + 1)) := by
        rw [List.take_succ, hv0, heightSumValues_append]
        simp [heightSumValues]
        omega
      rw [hline]
      exact ih (i + 1) b3 hdrop2

/-- C6, corrected: for a non-empty object rendered into a region `R` that
lies in the buffer, provided every entry's key label fits (`keyLineWidth
key + 2 <= R.width`, so the width computations `area.width - 2` and
`area.width - key_width - 2` do not underflow), each entry's first row
gets the key text surrounded by double quotes at column `R.left + 2`,
immediately followed by the `": "` separator, and the entry's value is
laid out starting on that same row at a column offset from `R.left + 2`
equal to the rendered width of the quoted key plus the separator width,
in the remaining width of the region. -/
theorem object_layout_spec (kvs : List (List Char × Json)) (R : Rect) (buf : Buffer)
    (hne : kvs.isEmpty = false)
    (hk : ∀ kv ∈ kvs, keyLineWidth kv.1 + 2 ≤ R.width)
    (hsub : R.intersection buf.area = R) (hempty : R.isEmpty = false) :
    render_object kvs R buf =
      match layoutEntriesSpec kvs R 0 (renderSpan ['{'] Style.punctuation R buf) with
      | none => none
      | some b => some (renderSpan ['}'] Style.punctuation
          ⟨R.left, R.top + 1 + heightSumValues kvs, R.width, 1⟩ b) := by
  rw [render_object]
  simp only [hsub, hempty, Bool.false_eq_true, if_false, hne]
  have h0 := renderObjectEntries_spec kvs R hk kvs 0
    (renderSpan ['{'] Style.punctuation R buf) (List.drop_zero kvs)
  simp only [List.take_zero, heightSumValues, Nat.add_zero] at h0
  rw [h0]
  cases hspec : layoutEntriesSpec kvs R 0 (renderSpan ['{'] Style.punctuation R buf) with
  | none => rfl
  | some b => rfl

/-- C6, counterexample: the claim quantifies over every region, but when
an entry's key label does not fit the region's width the computation
`area.width - key_width - 2` underflows and `render_object` faults
(`none`), so the described key and value writes do not happen: the key
`key` has `keyLineWidth` 7, and a width-8 region faults. -/
theorem object_layout_narrow_cex :
    render_object [("key".toList, Json.null)] ⟨0, 0, 8, 3⟩ (Buffer.empty ⟨0, 0, 10, 5⟩)
      = none := by decide

/-- Witness for `object_layout_spec`: the object with the single entry
`"k": null` in a 12 by 3 region. -/
theorem object_layout_spec_witness :
    render_object [("k".toList, Json.null)] (Rect.mk 0 0 12 3)
        (Buffer.empty (Rect.mk 0 0 12 3)) =
      match layoutEntriesSpec [("k".toList, Json.null)] (Rect.mk 0 0 12 3) 0
          (renderSpan ['{'] Style.punctuation (Rect.mk 0 0 12 3)
            (Buffer.empty (Rect.mk 0 0 12 3))) with
      | none => none
      | some b => some (renderSpan ['}'] Style.punctuation
          ⟨(Rect.mk 0 0 12 3).left,
            (Rect.mk 0 0 12 3).top + 1 + heightSumValues [("k".toList, Json.null)],
            (Rect.mk 0 0 12 3).width, 1⟩ b) :=
  object_layout_spec [("k".toList, Json.null)] (Rect.mk 0 0 12 3)
    (Buffer.empty (Rect.mk 0 0 12 3)) (by decide) (by decide) (by decide) (by decide)
